import Mathlib

/-!
Shallow embedding of the gym-log web application (`app/main.py`).

The store is modelled as lists of rows mirroring the SQLite tables; SQLite
AUTOINCREMENT primary keys are modelled by per-table `next_*` counters
(SQLite rowids start at 1 and are never reused).  `weight REAL` is modelled
as `Rat`: the application only ever compares weights (`MAX`, `<`, `=`) and
never performs arithmetic on them, so any linear order is faithful.
Python truthiness checks (`if not uid`, `if existing`, `if not sid`) are
modelled explicitly: `0` and `None` are falsy.
-/

namespace GymLog

/-- Row of the `users` table. -/
structure User where
  id : Nat
  email : String
  password_hash : String
  is_admin : Nat
  created_at : String
deriving DecidableEq

/-- Row of the `workout_templates` table. -/
structure WorkoutTemplate where
  id : Nat
  name : String
deriving DecidableEq

/-- Row of the `exercises` table. -/
structure Exercise where
  id : Nat
  name : String
deriving DecidableEq

/-- Row of the `template_exercises` join table (PK `(template_id, exercise_id)`). -/
structure TemplateExercise where
  template_id : Nat
  exercise_id : Nat
  order_index : Int
deriving DecidableEq

/-- Row of the `workout_sessions` table; `ended_at = none` means the session is open. -/
structure WorkoutSession where
  id : Nat
  day : String
  template_id : Nat
  workout_name : String
  started_at : String
  ended_at : Option String
  user_id : Option Nat
deriving DecidableEq

/-- Row of the `set_entries` table. -/
structure SetEntry where
  id : Nat
  day : String
  workout : String
  exercise : String
  weight : Rat
  reps : Int
  created_at : String
  session_id : Option Nat
  user_id : Option Nat
deriving DecidableEq

/-- The whole SQLite database. -/
structure Store where
  users : List User
  workout_templates : List WorkoutTemplate
  exercises : List Exercise
  template_exercises : List TemplateExercise
  workout_sessions : List WorkoutSession
  set_entries : List SetEntry
  next_user_id : Nat
  next_template_id : Nat
  next_exercise_id : Nat
  next_session_id : Nat
  next_entry_id : Nat
deriving DecidableEq

/-- An HTTP response as far as the claims care: a redirect (`RedirectResponse`)
or an error status (`HTTPException`). -/
inductive Response where
  | redirect (url : String) (status : Nat)
  | httpError (status : Nat)
deriving DecidableEq

/-- SQL `MAX(...)` over a column (also `ORDER BY x DESC LIMIT 1`): `none` on an
empty set of rows, otherwise the greatest value. -/
def sqlMax {α : Type} [LinearOrder α] : List α → Option α
  | [] => none
  | x :: xs => some (xs.foldl max x)

/-- The `{weight, reps, day}` record (plus the grouping key) selected by the
stat-aggregation queries: `SELECT se.exercise, se.weight, se.reps, se.day`. -/
structure StatRow where
  exercise : String
  weight : Rat
  reps : Int
  day : String
deriving DecidableEq

/-- Projection of a `set_entries` row onto the selected columns. -/
def SetEntry.statRow (se : SetEntry) : StatRow :=
  ⟨se.exercise, se.weight, se.reps, se.day⟩

/-- The final mapping built by the Python dict comprehension
`{r["exercise"]: dict(r) for r in rows}`: for each key, the LAST row of the
result list with that key wins. -/
def toDict : List StatRow → String → Option StatRow
  | [], _ => none
  | r :: rest, name =>
    match toDict rest name with
    | some v => some v
    | none => if r.exercise = name then some r else none

/-! ## Stat aggregator (`fetch_last_for_exercises`, `fetch_pr_for_exercises`) -/

/-- The row set of the inner subqueries:
`FROM set_entries WHERE user_id=? AND exercise IN (...)`. -/
def filtered_entries (entries : List SetEntry) (u : Nat) (names : List String) :
    List SetEntry :=
  entries.filter (fun se => decide (se.user_id = some u ∧ se.exercise ∈ names))

/-- Membership of the outer row `se` in the result of the `fetch_last_for_exercises`
query: the join `last ON last.max_id = se.id` (where `last` groups the filtered
entries by exercise and takes `MAX(id)`) together with `WHERE se.user_id=?`. -/
def last_row_ok (entries : List SetEntry) (u : Nat) (names : List String)
    (se : SetEntry) : Prop :=
  (∃ g ∈ filtered_entries entries u names,
    sqlMax (((filtered_entries entries u names).filter
      (fun r => decide (r.exercise = g.exercise))).map SetEntry.id) = some se.id)
  ∧ se.user_id = some u

instance (entries : List SetEntry) (u : Nat) (names : List String) (se : SetEntry) :
    Decidable (last_row_ok entries u names se) := by
  unfold last_row_ok; infer_instance

/-- `fetch_last_for_exercises(user_id, exercise_names)`: the dict comprehension
over the query's result rows; `{}` when `exercise_names` is empty. -/
def fetch_last_for_exercises (entries : List SetEntry) (u : Nat)
    (names : List String) : String → Option StatRow :=
  if names = [] then fun _ => none
  else toDict ((entries.filter
    (fun se => decide (last_row_ok entries u names se))).map SetEntry.statRow)

/-- Membership of the outer row `se` in the result of the `fetch_pr_for_exercises`
query: the three joins `mw` (max weight per exercise), `mr` (max reps per
exercise and weight) and `tie` (max id per exercise, weight and reps), each over
the filtered entries, together with `WHERE se.user_id=?`. -/
def pr_row_ok (entries : List SetEntry) (u : Nat) (names : List String)
    (se : SetEntry) : Prop :=
  sqlMax (((filtered_entries entries u names).filter
    (fun r => decide (r.exercise = se.exercise))).map SetEntry.weight) = some se.weight
  ∧ sqlMax (((filtered_entries entries u names).filter
    (fun r => decide (r.exercise = se.exercise ∧ r.weight = se.weight))).map
      SetEntry.reps) = some se.reps
  ∧ sqlMax (((filtered_entries entries u names).filter
    (fun r => decide (r.exercise = se.exercise ∧ r.weight = se.weight ∧
      r.reps = se.reps))).map SetEntry.id) = some se.id
  ∧ se.user_id = some u

instance (entries : List SetEntry) (u : Nat) (names : List String) (se : SetEntry) :
    Decidable (pr_row_ok entries u names se) := by
  unfold pr_row_ok; infer_instance

/-- `fetch_pr_for_exercises(user_id, exercise_names)`: highest weight wins, then
highest reps, then latest entry (max id); `{}` when `exercise_names` is empty. -/
def fetch_pr_for_exercises (entries : List SetEntry) (u : Nat)
    (names : List String) : String → Option StatRow :=
  if names = [] then fun _ => none
  else toDict ((entries.filter
    (fun se => decide (pr_row_ok entries u names se))).map SetEntry.statRow)

/-! ## Session lifecycle -/

/-- The `WHERE` clause of `get_active_session_id`:
`user_id=? AND template_id=? AND day=? AND ended_at IS NULL`. -/
def session_matches_open (u tid : Nat) (day : String) (r : WorkoutSession) : Prop :=
  r.user_id = some u ∧ r.template_id = tid ∧ r.day = day ∧ r.ended_at = none

instance (u tid : Nat) (day : String) (r : WorkoutSession) :
    Decidable (session_matches_open u tid day r) := by
  unfold session_matches_open; infer_instance

/-- The open sessions matching a `(user, template, day)` key. -/
def open_sessions (s : Store) (u tid : Nat) (day : String) : List WorkoutSession :=
  s.workout_sessions.filter (fun r => decide (session_matches_open u tid day r))

/-- `get_active_session_id`: `ORDER BY id DESC LIMIT 1` over the open sessions
for the key, i.e. the greatest matching id, or `None`. -/
def get_active_session_id (s : Store) (u tid : Nat) (day : String) : Option Nat :=
  sqlMax ((open_sessions s u tid day).map WorkoutSession.id)

/-- The `INSERT INTO workout_sessions ... VALUES (?, ?, ?, ?, NULL, ?)` of
`ensure_active_session`, followed by `SELECT last_insert_rowid()`. -/
def create_session (s : Store) (u tid : Nat) (wname day now : String) :
    Nat × Store :=
  (s.next_session_id,
   { s with
     workout_sessions := s.workout_sessions ++
       [⟨s.next_session_id, day, tid, wname, now, none, some u⟩],
     next_session_id := s.next_session_id + 1 })

/-- `ensure_active_session`: return the existing active session id when truthy
(`if existing:` — Python treats `0` and `None` as falsy), otherwise insert a
fresh open session row. -/
def ensure_active_session (s : Store) (u tid : Nat) (wname day now : String) :
    Nat × Store :=
  match get_active_session_id s u tid day with
  | some sid => if sid ≠ 0 then (sid, s) else create_session s u tid wname day now
  | none => create_session s u tid wname day now

/-- `close_active_session`: `UPDATE workout_sessions SET ended_at=? WHERE id=?
AND user_id=?` on the active session, no-op returning `None` when none is open
(`if not sid:`). -/
def close_active_session (s : Store) (u tid : Nat) (day now : String) :
    Option Nat × Store :=
  match get_active_session_id s u tid day with
  | some sid =>
    if sid ≠ 0 then
      (some sid,
       { s with workout_sessions := s.workout_sessions.map (fun r =>
           if r.id = sid ∧ r.user_id = some u then { r with ended_at := some now }
           else r) })
    else (none, s)
  | none => (none, s)

/-- Python `s.strip()`: drop leading and trailing whitespace (modelled over the
character list so that it evaluates inside the kernel). -/
def py_strip (s : String) : String :=
  String.mk (((s.data.dropWhile Char.isWhitespace).reverse.dropWhile
    Char.isWhitespace).reverse)

/-- Python `email.strip().lower()` (ASCII lowercasing). -/
def normalize_email (s : String) : String :=
  String.mk ((py_strip s).data.map Char.toLower)

/-! ## Users and auth helpers -/

def get_user_by_id (s : Store) (uid : Nat) : Option User :=
  s.users.find? (fun usr => decide (usr.id = uid))

def get_user_by_email (s : Store) (email : String) : Option User :=
  s.users.find? (fun usr => decide (usr.email = email))

/-- `create_user`: counts existing users, grants `is_admin = 1` to the first
user ever created, inserts, and returns `last_insert_rowid()`.  The PBKDF2 hash
is an opaque input string `ph`. -/
def create_user (s : Store) (email ph now : String) : Nat × Store :=
  (s.next_user_id,
   { s with
     users := s.users ++
       [⟨s.next_user_id, email, ph, if s.users.length = 0 then 1 else 0, now⟩],
     next_user_id := s.next_user_id + 1 })

/-- `claim_legacy_rows`: `UPDATE set_entries SET user_id=? WHERE user_id IS NULL`
and likewise for `workout_sessions`. -/
def claim_legacy_rows (uid : Nat) (s : Store) : Store :=
  { s with
    set_entries := s.set_entries.map (fun e =>
      if e.user_id = none then { e with user_id := some uid } else e),
    workout_sessions := s.workout_sessions.map (fun r =>
      if r.user_id = none then { r with user_id := some uid } else r) }

/-- `require_user_id`: 401 when the cookie holds no user id, or a falsy one
(`if not uid:`). -/
def require_user_id (uidOpt : Option Nat) : Except Nat Nat :=
  match uidOpt with
  | none => Except.error 401
  | some uid => if uid = 0 then Except.error 401 else Except.ok uid

/-- `require_admin`: `require_user_id`, then 403 unless the user row exists and
`int(user.get("is_admin") or 0) == 1`. -/
def require_admin (s : Store) (uidOpt : Option Nat) : Except Nat Nat :=
  match require_user_id uidOpt with
  | Except.error c => Except.error c
  | Except.ok uid =>
    match get_user_by_id s uid with
    | none => Except.error 403
    | some usr => if usr.is_admin ≠ 1 then Except.error 403 else Except.ok uid

/-! ## Routes.  Each route takes the store, the identity held by the request's
cookie (`uidOpt`) where relevant, the form fields, and the wall-clock strings
(`day`, `now`) as inputs, and returns the response together with the new store. -/

/-- `POST /login`.  `verified` is the outcome of `verify_password` (the PBKDF2
comparison is opaque to this model); `if not user or not verify_password(...)`
redirects back with an error, otherwise the identity is set and legacy rows are
claimed. -/
def login (s : Store) (email : String) (verified : Bool) : Response × Store :=
  match get_user_by_email s (normalize_email email) with
  | none => (Response.redirect ("/login?error=Invalid%20login") 303, s)
  | some usr =>
    if verified then (Response.redirect ("/") 303, claim_legacy_rows usr.id s)
    else (Response.redirect ("/login?error=Invalid%20login") 303, s)

/-- `POST /register`: rejects short passwords and duplicate (normalized) emails,
otherwise creates the user, sets the identity and claims legacy rows. -/
def register (s : Store) (email password ph now : String) : Response × Store :=
  if password.length < 6 then
    (Response.redirect ("/register?error=Password%20too%20short") 303, s)
  else
    match get_user_by_email s (normalize_email email) with
    | some _ => (Response.redirect ("/register?error=Email%20already%20used") 303, s)
    | none =>
      let p := create_user s (normalize_email email) ph now
      (Response.redirect ("/") 303, claim_legacy_rows p.1 p.2)

/-- `POST /log`: requires identity; out-of-range weight or reps are silently
discarded with the same redirect; otherwise ensures the active session and
inserts the set entry. -/
def log_set (s : Store) (uidOpt : Option Nat) (template_id : Nat)
    (workout exercise : String) (weight : Rat) (reps : Int) (day now : String) :
    Response × Store :=
  match require_user_id uidOpt with
  | Except.error c => (Response.httpError c, s)
  | Except.ok uid =>
    if weight < 0 ∨ weight > 2000 ∨ reps < 1 ∨ reps > 200 then
      (Response.redirect (s!"/?t={template_id}") 303, s)
    else
      let p := ensure_active_session s uid template_id workout day now
      (Response.redirect (s!"/?t={template_id}") 303,
       { p.2 with
         set_entries := p.2.set_entries ++
           [⟨p.2.next_entry_id, day, workout, exercise, weight, reps, now,
             some p.1, some uid⟩],
         next_entry_id := p.2.next_entry_id + 1 })

/-- `INSERT OR IGNORE INTO exercises(name) VALUES (?)`. -/
def insert_exercise_if_new (s : Store) (name : String) : Store :=
  if s.exercises.any (fun e => decide (e.name = name)) then s
  else { s with
         exercises := s.exercises ++ [⟨s.next_exercise_id, name⟩],
         next_exercise_id := s.next_exercise_id + 1 }

/-- `POST /template/add_exercise`: admin only; creates the exercise if new and
appends it to the template at `COALESCE(MAX(order_index), -1) + 1`
(`INSERT OR IGNORE` on the `(template_id, exercise_id)` primary key). -/
def add_exercise (s : Store) (uidOpt : Option Nat) (template_id : Nat)
    (exercise_name : String) : Response × Store :=
  match require_admin s uidOpt with
  | Except.error c => (Response.httpError c, s)
  | Except.ok _ =>
    if py_strip exercise_name = "" then
      (Response.redirect (s!"/?t={template_id}&edit=1") 303, s)
    else
      let s1 := insert_exercise_if_new s (py_strip exercise_name)
      match s1.exercises.find? (fun e => decide (e.name = py_strip exercise_name)) with
      | none => (Response.httpError 500, s1)
      | some ex =>
        let next_idx : Int := ((s1.template_exercises.filter
          (fun te => decide (te.template_id = template_id))).map
            TemplateExercise.order_index).foldl max (-1) + 1
        (Response.redirect (s!"/?t={template_id}&edit=1") 303,
         if s1.template_exercises.any (fun te =>
             decide (te.template_id = template_id ∧ te.exercise_id = ex.id)) then s1
         else { s1 with template_exercises := s1.template_exercises ++
                  [⟨template_id, ex.id, next_idx⟩] })

/-- `POST /template/remove_exercise`: admin only; deletes the association. -/
def remove_exercise (s : Store) (uidOpt : Option Nat)
    (template_id exercise_id : Nat) : Response × Store :=
  match require_admin s uidOpt with
  | Except.error c => (Response.httpError c, s)
  | Except.ok _ =>
    (Response.redirect (s!"/?t={template_id}&edit=1") 303,
     { s with template_exercises := s.template_exercises.filter (fun te =>
         decide (¬(te.template_id = template_id ∧ te.exercise_id = exercise_id))) })

/-- `POST /session/done`: requires identity; closes today's open session. -/
def done_session (s : Store) (uidOpt : Option Nat) (template_id : Nat)
    (day now : String) : Response × Store :=
  match require_user_id uidOpt with
  | Except.error c => (Response.httpError c, s)
  | Except.ok uid =>
    (Response.redirect (s!"/?t={template_id}") 303,
     (close_active_session s uid template_id day now).2)

/-! ## Startup: `init_db` on a fresh database plus `seed_templates_if_empty`. -/

/-- The `WORKOUTS` constant used only to seed the database the first time. -/
def WORKOUTS : List (String × List String) :=
  [("Push", ["Bench Press", "Incline DB Press", "Overhead Press", "Tricep Pushdown"]),
   ("Pull", ["Lat Pulldown", "Row", "Face Pull", "Bicep Curl"]),
   ("Legs", ["Squat", "RDL", "Leg Press", "Leg Curl", "Calf Raise"])]

/-- One iteration of the seeding inner loop: insert-or-ignore the exercise,
look up its id, and insert-or-ignore the template association at `order_index`
equal to the enumeration index. -/
def seed_template_exercise (tid : Nat) (s : Store) (q : Nat × String) : Store :=
  let s1 := insert_exercise_if_new s q.2
  match s1.exercises.find? (fun e => decide (e.name = q.2)) with
  | none => s1
  | some ex =>
    if s1.template_exercises.any (fun te =>
        decide (te.template_id = tid ∧ te.exercise_id = ex.id)) then s1
    else { s1 with template_exercises := s1.template_exercises ++
             [⟨tid, ex.id, (q.1 : Int)⟩] }

/-- One iteration of the seeding outer loop: insert the template, then its
exercise list. -/
def seed_one_template (s : Store) (p : String × List String) : Store :=
  let tid := s.next_template_id
  let s1 := { s with
              workout_templates := s.workout_templates ++ [⟨tid, p.1⟩],
              next_template_id := tid + 1 }
  p.2.enum.foldl (fun acc q => seed_template_exercise tid acc q) s1

/-- The empty database produced by `init_db` on a fresh file. -/
def emptyStore : Store := ⟨[], [], [], [], [], [], 1, 1, 1, 1, 1⟩

/-- `seed_templates_if_empty`. -/
def seed_templates_if_empty (s : Store) : Store :=
  if s.workout_templates.length = 0 then WORKOUTS.foldl seed_one_template s else s

/-- The store after the startup hook on a fresh deployment. -/
def initStore : Store := seed_templates_if_empty emptyStore

/-! ## The app's transition relation: one HTTP request. -/

/-- One request handled by the application.  `read` covers all the routes that
never write to the store (`GET` pages, `/logout`, `/admin/db_info`, failed
requests of any kind are also covered by the write constructors themselves,
which include their failure branches). -/
inductive AppStep : Store → Store → Prop where
  | read (s : Store) : AppStep s s
  | login_step (s : Store) (email : String) (verified : Bool) :
      AppStep s (login s email verified).2
  | register_step (s : Store) (email password ph now : String) :
      AppStep s (register s email password ph now).2
  | log_set_step (s : Store) (uidOpt : Option Nat) (template_id : Nat)
      (workout exercise : String) (weight : Rat) (reps : Int) (day now : String) :
      AppStep s (log_set s uidOpt template_id workout exercise weight reps day now).2
  | add_exercise_step (s : Store) (uidOpt : Option Nat) (template_id : Nat)
      (exercise_name : String) :
      AppStep s (add_exercise s uidOpt template_id exercise_name).2
  | remove_exercise_step (s : Store) (uidOpt : Option Nat)
      (template_id exercise_id : Nat) :
      AppStep s (remove_exercise s uidOpt template_id exercise_id).2
  | done_session_step (s : Store) (uidOpt : Option Nat) (template_id : Nat)
      (day now : String) :
      AppStep s (done_session s uidOpt template_id day now).2

/-- States reachable by the application from a fresh deployment. -/
def Reachable (s : Store) : Prop := Relation.ReflTransGen AppStep initStore s

/-- C5 helper: the in-range predicate of the `/log` guardrails. -/
def log_in_range (weight : Rat) (reps : Int) : Prop :=
  0 ≤ weight ∧ weight ≤ 2000 ∧ 1 ≤ reps ∧ reps ≤ 200


/-! ## Auxiliary definitions used only to state and witness the claims -/

/-- A run of sequential `POST /register` requests
(email, password, password hash, timestamp). -/
def run_registers (s : Store) : List (String × String × String × String) → Store
  | [] => s
  | i :: rest => run_registers (register s i.1 i.2.1 i.2.2.1 i.2.2.2).2 rest

/-- C6 shape: in creation order, the first user is an admin and every later
user is not. -/
def first_user_admin_shape : List User → Prop
  | [] => True
  | u :: rest => u.is_admin = 1 ∧ ∀ v ∈ rest, v.is_admin = 0

/-- A run of sequential `ensure_active_session` calls on one
`(user, template, day)` key, one timestamp per call, collecting the returned
session ids. -/
def iterate_ensure (s : Store) (u tid : Nat) (wname day : String) :
    List String → List Nat × Store
  | [] => ([], s)
  | now :: rest =>
    let p := ensure_active_session s u tid wname day now
    let q := iterate_ensure p.2 u tid wname day rest
    (p.1 :: q.1, q.2)

/-- Well-formedness of the sessions table maintained by SQLite: rowids are
positive, below the AUTOINCREMENT counter, and unique. -/
def sessions_wf (s : Store) : Prop :=
  1 ≤ s.next_session_id
  ∧ (∀ r ∈ s.workout_sessions, 1 ≤ r.id ∧ r.id < s.next_session_id)
  ∧ (s.workout_sessions.map WorkoutSession.id).Nodup

instance (s : Store) : Decidable (sessions_wf s) := by
  unfold sessions_wf
  infer_instance

/-- Every set entry has an owner. -/
def entries_owned (s : Store) : Prop :=
  ∀ e ∈ s.set_entries, e.user_id ≠ none

/-- Every session row has an owner. -/
def sessions_owned (s : Store) : Prop :=
  ∀ r ∈ s.workout_sessions, r.user_id ≠ none

/-- C1: the strict lexicographic order (weight, then reps, then id) on set
entries. -/
def lexLT (a b : SetEntry) : Prop :=
  a.weight < b.weight
  ∨ (a.weight = b.weight ∧
      (a.reps < b.reps ∨ (a.reps = b.reps ∧ a.id < b.id)))

instance (a b : SetEntry) : Decidable (lexLT a b) := by
  unfold lexLT
  infer_instance

/-- Witness store: two users registered on a fresh store — user 1 (admin) and
user 2 (not admin). -/
def run_registers_demo : Store :=
  run_registers emptyStore
    [("a@x.com", "secret1", "PH1", "t1"), ("b@x.com", "secret2", "PH2", "t2")]

/-- The second registered user of `run_registers_demo`. -/
def demo_user2 : User := ⟨2, "b@x.com", "PH2", 0, "t2"⟩

/-- Witness store with one legacy (unowned) set entry and one legacy session. -/
def legacy_demo_store : Store :=
  { emptyStore with
    set_entries := [⟨1, "d", "Push", "Bench Press", 100, 5, "t", none, none⟩],
    workout_sessions := [⟨1, "d", 1, "Push", "t", none, none⟩],
    next_session_id := 2,
    next_entry_id := 2 }

/-- Witness store with exactly one open session for the key
`(user 1, template 2, day 2026-01-01)`. -/
def legacy_session_store : Store :=
  { emptyStore with
    workout_sessions := [⟨1, "2026-01-01", 2, "Push", "t0", none, some 1⟩],
    next_session_id := 2 }

/-- The entries of user `u` for exercise `name` within the queried set: the
group of the aggregation subqueries. -/
def user_exercise_entries (entries : List SetEntry) (u : Nat)
    (names : List String) (name : String) : List SetEntry :=
  (filtered_entries entries u names).filter (fun r => decide (r.exercise = name))

/-- Witness entries for the spec's PR example: (100kg x 5), (100kg x 8),
(90kg x 10) for Bench Press, all user 1. -/
def demo_bench : List SetEntry :=
  [⟨1, "d1", "Push", "Bench Press", 100, 5, "t1", none, some 1⟩,
   ⟨2, "d2", "Push", "Bench Press", 100, 8, "t2", none, some 1⟩,
   ⟨3, "d3", "Push", "Bench Press", 90, 10, "t3", none, some 1⟩]

/-- Witness entries for the spec's tie-break example: (100kg x 5, id 1),
(100kg x 5, id 2) for Row, both user 1. -/
def demo_row : List SetEntry :=
  [⟨1, "d1", "Pull", "Row", 100, 5, "t1", none, some 1⟩,
   ⟨2, "d2", "Pull", "Row", 100, 5, "t2", none, some 1⟩]

/-- Witness entries: only user 1's row. -/
def demo_scope1 : List SetEntry :=
  [⟨1, "d1", "Push", "Bench Press", 100, 5, "t1", none, some 1⟩]

/-- Witness entries: user 1's row plus an unrelated heavier row of user 2. -/
def demo_scope2 : List SetEntry :=
  [⟨1, "d1", "Push", "Bench Press", 100, 5, "t1", none, some 1⟩,
   ⟨2, "d2", "Push", "Bench Press", 180, 9, "t2", none, some 2⟩]

/-! ## Supporting lemmas -/

theorem le_foldl_max {α : Type} [LinearOrder α] (xs : List α) (x : α) :
    x ≤ xs.foldl max x := by
  induction xs generalizing x with
  | nil => exact le_refl x
  | cons a xs ih => exact le_trans (le_max_left x a) (ih (max x a))

theorem foldl_max_mem {α : Type} [LinearOrder α] (xs : List α) (x : α) :
    xs.foldl max x = x ∨ xs.foldl max x ∈ xs := by
  induction xs generalizing x with
  | nil => exact Or.inl rfl
  | cons a xs ih =>
    rcases ih (max x a) with h | h
    · rcases max_choice x a with hc | hc
      · exact Or.inl (by rw [List.foldl_cons, h, hc])
      · exact Or.inr (by rw [List.foldl_cons, h, hc]; exact List.mem_cons_self a xs)
    · exact Or.inr (List.mem_cons_of_mem a h)

theorem foldl_max_ub {α : Type} [LinearOrder α] (xs : List α) (x : α) :
    ∀ y ∈ xs, y ≤ xs.foldl max x := by
  induction xs generalizing x with
  | nil => intro y hy; cases hy
  | cons a xs ih =>
    intro y hy
    rcases List.mem_cons.mp hy with rfl | hy
    · exact le_trans (le_max_right x y) (le_foldl_max xs (max x y))
    · exact ih (max x a) y hy

/-- `sqlMax l = some m` exactly when `m` is a member of `l` bounding all of `l`. -/
theorem sqlMax_eq_some_iff {α : Type} [LinearOrder α] {l : List α} {m : α} :
    sqlMax l = some m ↔ m ∈ l ∧ ∀ x ∈ l, x ≤ m := by
  cases l with
  | nil => simp [sqlMax]
  | cons x xs =>
    constructor
    · intro h
      have hm : xs.foldl max x = m := by simpa [sqlMax] using h
      constructor
      · rcases foldl_max_mem xs x with h' | h'
        · rw [← hm, h']; exact List.mem_cons_self x xs
        · rw [← hm]; exact List.mem_cons_of_mem x h'
      · intro y hy
        rcases List.mem_cons.mp hy with rfl | hy
        · rw [← hm]; exact le_foldl_max xs y
        · rw [← hm]; exact foldl_max_ub xs x y hy
    · rintro ⟨hmem, hub⟩
      have h1 : xs.foldl max x ≤ m := by
        rcases foldl_max_mem xs x with h' | h'
        · rw [h']; exact hub x (List.mem_cons_self x xs)
        · exact hub _ (List.mem_cons_of_mem x h')
      have h2 : m ≤ xs.foldl max x := by
        rcases List.mem_cons.mp hmem with rfl | h'
        · exact le_foldl_max xs m
        · exact foldl_max_ub xs x m h'
      simp [sqlMax, le_antisymm h1 h2]

theorem sqlMax_of_ne_nil {α : Type} [LinearOrder α] {l : List α} (h : l ≠ []) :
    ∃ m, sqlMax l = some m := by
  cases l with
  | nil => exact absurd rfl h
  | cons x xs => exact ⟨xs.foldl max x, rfl⟩

theorem toDict_eq_none_iff {rows : List StatRow} {name : String} :
    toDict rows name = none ↔ ∀ r ∈ rows, r.exercise ≠ name := by
  induction rows with
  | nil => simp [toDict]
  | cons r rest ih =>
    constructor
    · intro h
      cases hrec : toDict rest name with
      | some v => rw [toDict, hrec] at h; cases h
      | none =>
        rw [toDict, hrec] at h
        intro r' hr'
        rcases List.mem_cons.mp hr' with rfl | hr'
        · intro he; rw [if_pos he] at h; cases h
        · exact ih.mp hrec r' hr'
    · intro h
      have hrec : toDict rest name = none :=
        ih.mpr fun r' hr' => h r' (List.mem_cons_of_mem r hr')
      rw [toDict, hrec, if_neg (h r (List.mem_cons_self r rest))]

/-- If `v` is in `rows`, has the looked-up key, and every row of `rows` with
that key equals `v`, then the dict maps the key to `v`. -/
theorem toDict_unique {rows : List StatRow} {name : String} {v : StatRow}
    (huniq : ∀ r ∈ rows, r.exercise = name → r = v)
    (hmem : v ∈ rows) (hkey : v.exercise = name) :
    toDict rows name = some v := by
  induction rows with
  | nil => cases hmem
  | cons r rest ih =>
    by_cases hvr : v ∈ rest
    · have hrec : toDict rest name = some v :=
        ih (fun r' hr' he => huniq r' (List.mem_cons_of_mem r hr') he) hvr
      rw [toDict, hrec]
    · have hr : r = v := by
        rcases List.mem_cons.mp hmem with h | h
        · exact h.symm
        · exact absurd h hvr
      have hrec : toDict rest name = none := by
        rw [toDict_eq_none_iff]
        intro r' hr' he
        exact hvr (huniq r' (List.mem_cons_of_mem r hr') he ▸ hr')
      rw [toDict, hrec, hr, if_pos hkey]



/-- `ensure_active_session` only touches the sessions table and its counter. -/
theorem ensure_preserves_entries (s : Store) (u tid : Nat) (wname day now : String) :
    (ensure_active_session s u tid wname day now).2.set_entries = s.set_entries ∧
    (ensure_active_session s u tid wname day now).2.next_entry_id = s.next_entry_id := by
  unfold ensure_active_session create_session
  cases get_active_session_id s u tid day with
  | none => exact ⟨rfl, rfl⟩
  | some sid =>
    by_cases h : sid = 0 <;> simp [h]

/-- C5: for an authenticated `POST /log`, the response is always the same
redirect, and a `set_entries` row is appended exactly when the weight and reps
are in range; out-of-range submissions leave the store untouched. -/
theorem log_set_guardrails (s : Store) (u : Nat) (template_id : Nat)
    (workout exercise : String) (weight : Rat) (reps : Int) (day now : String)
    (h0 : u ≠ 0) :
    (log_set s (some u) template_id workout exercise weight reps day now).1 =
      Response.redirect (s!"/?t={template_id}") 303
    ∧ (log_in_range weight reps →
        (log_set s (some u) template_id workout exercise weight reps day
          now).2.set_entries
          = s.set_entries ++
            [⟨s.next_entry_id, day, workout, exercise, weight, reps, now,
              some (ensure_active_session s u template_id workout day now).1,
              some u⟩])
    ∧ (¬log_in_range weight reps →
        (log_set s (some u) template_id workout exercise weight reps day now).2
          = s) := by
  have hcond : (weight < 0 ∨ weight > 2000 ∨ reps < 1 ∨ reps > 200) ↔
      ¬log_in_range weight reps := by
    unfold log_in_range
    constructor
    · rintro (h | h | h | h) ⟨h1, h2, h3, h4⟩
      · exact absurd h1 (not_le.mpr h)
      · exact absurd h2 (not_le.mpr h)
      · exact absurd h3 (not_le.mpr h)
      · exact absurd h4 (not_le.mpr h)
    · intro h
      by_contra hc
      push_neg at hc
      exact h ⟨hc.1, hc.2.1, hc.2.2.1, hc.2.2.2⟩
  by_cases hr : log_in_range weight reps
  · have hif : ¬(weight < 0 ∨ weight > 2000 ∨ reps < 1 ∨ reps > 200) := by
      rw [hcond]; exact not_not_intro hr
    refine ⟨?_, fun _ => ?_, fun hn => absurd hr hn⟩
    · simp [log_set, require_user_id, h0, hif]
    · simp only [log_set, require_user_id, if_neg h0, if_neg hif]
      rw [(ensure_preserves_entries s u template_id workout day now).1,
        (ensure_preserves_entries s u template_id workout day now).2]
  · have hif : weight < 0 ∨ weight > 2000 ∨ reps < 1 ∨ reps > 200 :=
      hcond.mpr hr
    refine ⟨?_, fun hy => absurd hy hr, fun _ => ?_⟩ <;>
      simp [log_set, require_user_id, h0, hif]

/-- C5 witness: user 1, weight 2001 (rejected, store unchanged) and weight 100
with 5 reps (row appended), both with the same redirect. -/
theorem log_set_guardrails_witness :
    ((1 : Nat) ≠ 0
      ∧ (log_set emptyStore (some 1) 1 ("Push") ("Bench Press") 2001 5 ("d")
          ("n")).2 = emptyStore)
    ∧ ((1 : Nat) ≠ 0
      ∧ (log_set emptyStore (some 1) 1 ("Push") ("Bench Press") 100 5 ("d")
          ("n")).2.set_entries
        = emptyStore.set_entries ++
          [⟨emptyStore.next_entry_id, "d", "Push", "Bench Press", 100, 5, "n",
            some (ensure_active_session emptyStore 1 1 ("Push") ("d") ("n")).1,
            some 1⟩]) :=
  ⟨⟨by decide,
    (log_set_guardrails emptyStore 1 1 ("Push") ("Bench Press") 2001 5 ("d") ("n")
      (by decide)).2.2 (by intro h; exact absurd h.2.1 (by norm_num))⟩,
   ⟨by decide,
    (log_set_guardrails emptyStore 1 1 ("Push") ("Bench Press") 100 5 ("d") ("n")
      (by decide)).2.1 (by refine ⟨by norm_num, by norm_num, by norm_num, by norm_num⟩)⟩⟩

/-- C9: `POST /template/add_exercise` by an authenticated non-admin user
answers 403 with the store unchanged; an unauthenticated request answers 401
with the store unchanged. -/
theorem add_exercise_admin_gate (s : Store) (u : Nat) (usr : User)
    (template_id : Nat) (exercise_name : String)
    (h0 : u ≠ 0) (hfind : get_user_by_id s u = some usr)
    (hadm : usr.is_admin ≠ 1) :
    add_exercise s (some u) template_id exercise_name =
      (Response.httpError 403, s)
    ∧ add_exercise s none template_id exercise_name =
      (Response.httpError 401, s) := by
  constructor
  · simp [add_exercise, require_admin, require_user_id, h0, hfind, hadm]
  · simp [add_exercise, require_admin, require_user_id]

/-- C9 witness: a store whose only users are an admin (id 1) and a non-admin
(id 2); the non-admin gets 403, the anonymous request gets 401, both leaving
the store unchanged. -/
theorem add_exercise_admin_gate_witness :
    ((2 : Nat) ≠ 0
      ∧ get_user_by_id (run_registers_demo) 2 = some demo_user2
      ∧ demo_user2.is_admin ≠ 1)
    ∧ add_exercise (run_registers_demo) (some 2) 1 ("Dips") =
        (Response.httpError 403, run_registers_demo)
    ∧ add_exercise (run_registers_demo) none 1 ("Dips") =
        (Response.httpError 401, run_registers_demo) := by
  refine ⟨⟨by decide, by decide, by decide⟩, ?_⟩
  exact add_exercise_admin_gate run_registers_demo 2 demo_user2 1 ("Dips")
    (by decide) (by decide) (by decide)

/-! ## C6: first registered user is the admin -/

/-- One `POST /register` preserves the "first user is the only admin" shape of
the users table. -/
theorem register_users_shape (s : Store) (email password ph now : String)
    (h : first_user_admin_shape s.users) :
    first_user_admin_shape (register s email password ph now).2.users := by
  have hcases : (register s email password ph now).2.users = s.users
      ∨ (register s email password ph now).2.users
        = s.users ++ [⟨s.next_user_id, normalize_email email, ph,
            if s.users.length = 0 then 1 else 0, now⟩] := by
    unfold register
    by_cases hp : password.length < 6
    · left
      simp [hp]
    · cases hfind : get_user_by_email s (normalize_email email) with
      | some usr =>
        left
        simp [hp, hfind]
      | none =>
        right
        simp [hp, hfind, create_user, claim_legacy_rows]
  rcases hcases with hu | hu
  · rw [hu]
    exact h
  · rw [hu]
    cases hs : s.users with
    | nil => simp [first_user_admin_shape, hs]
    | cons u0 rest =>
      rw [hs] at h
      unfold first_user_admin_shape at h ⊢
      refine ⟨h.1, ?_⟩
      intro v hv
      rcases List.mem_append.mp hv with hv | hv
      · exact h.2 v hv
      · have hv2 : v = (⟨s.next_user_id, normalize_email email, ph, 0, now⟩ :
            User) := by
          simpa using hv
        rw [hv2]

/-- C6: starting from a store with no users, after any sequence of
registrations the first created user has `is_admin = 1` and all later ones
have `is_admin = 0`. -/
theorem first_registration_is_admin (s : Store)
    (inputs : List (String × String × String × String)) (h : s.users = []) :
    first_user_admin_shape (run_registers s inputs).users := by
  have h0 : first_user_admin_shape s.users := by
    rw [h]; trivial
  clear h
  induction inputs generalizing s with
  | nil => exact h0
  | cons i rest ih =>
    exact ih (register s i.1 i.2.1 i.2.2.1 i.2.2.2).2
      (register_users_shape s i.1 i.2.1 i.2.2.1 i.2.2.2 h0)

/-- C6 witness: registering twice on the empty store gives users
`[admin, non-admin]`. -/
theorem first_registration_is_admin_witness :
    emptyStore.users = []
    ∧ first_user_admin_shape run_registers_demo.users
    ∧ run_registers_demo.users.map User.is_admin = [1, 0] :=
  ⟨rfl,
   first_registration_is_admin emptyStore
     [("a@x.com", "secret1", "PH1", "t1"), ("b@x.com", "secret2", "PH2", "t2")]
     rfl,
   by decide⟩

/-! ## Ownership invariant (C7, C8) -/

theorem claim_makes_entries_owned (uid : Nat) (s : Store) :
    entries_owned (claim_legacy_rows uid s) := by
  intro e he
  obtain ⟨x, _, hfe⟩ := List.mem_map.mp he
  by_cases hx : x.user_id = none
  · rw [if_pos hx] at hfe
    rw [← hfe]
    simp
  · rw [if_neg hx] at hfe
    rw [← hfe]
    exact hx

theorem claim_makes_sessions_owned (uid : Nat) (s : Store) :
    sessions_owned (claim_legacy_rows uid s) := by
  intro r hr
  obtain ⟨x, _, hfr⟩ := List.mem_map.mp hr
  by_cases hx : x.user_id = none
  · rw [if_pos hx] at hfr
    rw [← hfr]
    simp
  · rw [if_neg hx] at hfr
    rw [← hfr]
    exact hx

/-- On a store where every row already has an owner, `claim_legacy_rows` is the
identity. -/
theorem claim_eq_self_of_owned (v : Nat) (s : Store)
    (he : entries_owned s) (hs : sessions_owned s) :
    claim_legacy_rows v s = s := by
  unfold claim_legacy_rows
  have h1 : s.set_entries.map (fun e =>
      if e.user_id = none then { e with user_id := some v } else e)
      = s.set_entries := by
    rw [List.map_congr_left (fun e hmem => if_neg (he e hmem))]
    exact List.map_id s.set_entries
  have h2 : s.workout_sessions.map (fun r =>
      if r.user_id = none then { r with user_id := some v } else r)
      = s.workout_sessions := by
    rw [List.map_congr_left (fun r hmem => if_neg (hs r hmem))]
    exact List.map_id s.workout_sessions
  rw [h1, h2]

theorem claim_preserves_other_tables (v : Nat) (s : Store) :
    (claim_legacy_rows v s).users = s.users ∧
    (claim_legacy_rows v s).set_entries.length = s.set_entries.length :=
  ⟨rfl, List.length_map s.set_entries _⟩

theorem ensure_owned (s : Store) (u tid : Nat) (wname day now : String)
    (he : entries_owned s) (hs : sessions_owned s) :
    entries_owned (ensure_active_session s u tid wname day now).2
    ∧ sessions_owned (ensure_active_session s u tid wname day now).2 := by
  have hcreate : entries_owned (create_session s u tid wname day now).2
      ∧ sessions_owned (create_session s u tid wname day now).2 := by
    constructor
    · exact he
    · intro r hr
      rcases List.mem_append.mp hr with hr | hr
      · exact hs r hr
      · have : r = (⟨s.next_session_id, day, tid, wname, now, none, some u⟩ :
            WorkoutSession) := by simpa using hr
        rw [this]
        simp
  unfold ensure_active_session
  cases get_active_session_id s u tid day with
  | none => exact hcreate
  | some sid =>
    by_cases h0 : sid = 0
    · simpa [h0] using hcreate
    · simpa [h0] using And.intro he hs

theorem close_owned (s : Store) (u tid : Nat) (day now : String)
    (he : entries_owned s) (hs : sessions_owned s) :
    entries_owned (close_active_session s u tid day now).2
    ∧ sessions_owned (close_active_session s u tid day now).2 := by
  unfold close_active_session
  split
  next sid hget =>
    split
    next h0 =>
      refine ⟨he, ?_⟩
      intro r hr
      obtain ⟨x, hx, hfx⟩ := List.mem_map.mp hr
      by_cases hc : x.id = sid ∧ x.user_id = some u
      · rw [if_pos hc] at hfx
        rw [← hfx]
        simp [hc.2]
      · rw [if_neg hc] at hfx
        rw [← hfx]
        exact hs x hx
    next h0 => exact ⟨he, hs⟩
  next hget => exact ⟨he, hs⟩

/-- Every request preserves the ownership invariant. -/
theorem app_step_owned {s s' : Store} (h : AppStep s s')
    (he : entries_owned s) (hs : sessions_owned s) :
    entries_owned s' ∧ sessions_owned s' := by
  cases h with
  | read => exact ⟨he, hs⟩
  | login_step email verified =>
    unfold login
    cases get_user_by_email s (normalize_email email) with
    | none => exact ⟨he, hs⟩
    | some usr =>
      cases verified with
      | false => exact ⟨he, hs⟩
      | true =>
        exact ⟨claim_makes_entries_owned usr.id s,
          claim_makes_sessions_owned usr.id s⟩
  | register_step email password ph now =>
    unfold register
    by_cases hp : password.length < 6
    · simpa [hp] using And.intro he hs
    · cases hfind : get_user_by_email s (normalize_email email) with
      | some usr => simpa [hp, hfind] using And.intro he hs
      | none =>
        simp only [hp, if_false, hfind]
        exact ⟨claim_makes_entries_owned _ _, claim_makes_sessions_owned _ _⟩
  | log_set_step uidOpt template_id workout exercise weight reps day now =>
    unfold log_set
    cases uidOpt with
    | none => exact ⟨he, hs⟩
    | some uid =>
      by_cases h0 : uid = 0
      · simpa [require_user_id, h0] using And.intro he hs
      · simp only [require_user_id, if_neg h0]
        by_cases hr : weight < 0 ∨ weight > 2000 ∨ reps < 1 ∨ reps > 200
        · simpa [hr] using And.intro he hs
        · simp only [if_neg hr]
          obtain ⟨he', hs'⟩ := ensure_owned s uid template_id workout day now he hs
          refine ⟨?_, hs'⟩
          intro e hmem
          rcases List.mem_append.mp hmem with hmem | hmem
          · exact he' e hmem
          · have : e = (⟨(ensure_active_session s uid template_id workout day
                now).2.next_entry_id, day, workout, exercise, weight, reps, now,
                some (ensure_active_session s uid template_id workout day now).1,
                some uid⟩ : SetEntry) := by simpa using hmem
            rw [this]
            simp
  | add_exercise_step uidOpt template_id exercise_name =>
    unfold add_exercise
    cases require_admin s uidOpt with
    | error c => exact ⟨he, hs⟩
    | ok uid =>
      by_cases hn : py_strip exercise_name = ""
      · simpa [hn] using And.intro he hs
      · simp only [hn, if_false]
        have hsame : ∀ t : Store, t.set_entries = s.set_entries →
            t.workout_sessions = s.workout_sessions →
            entries_owned t ∧ sessions_owned t := by
          intro t h1 h2
          constructor
          · intro e hmem; exact he e (h1 ▸ hmem)
          · intro r hmem; exact hs r (h2 ▸ hmem)
        cases hfind : (insert_exercise_if_new s (py_strip exercise_name)).exercises.find?
            (fun e => decide (e.name = py_strip exercise_name)) with
        | none =>
          refine hsame _ ?_ ?_ <;>
            · unfold insert_exercise_if_new
              by_cases hany : s.exercises.any (fun e =>
                decide (e.name = py_strip exercise_name)) <;> simp [hany]
        | some ex =>
          by_cases hany2 : (insert_exercise_if_new s
              (py_strip exercise_name)).template_exercises.any (fun te =>
                decide (te.template_id = template_id ∧ te.exercise_id = ex.id)) <;>
            · refine hsame _ ?_ ?_ <;>
                · simp only [hany2, if_true, if_false]
                  unfold insert_exercise_if_new
                  by_cases hany : s.exercises.any (fun e =>
                    decide (e.name = py_strip exercise_name)) <;> simp [hany]
  | remove_exercise_step uidOpt template_id exercise_id =>
    unfold remove_exercise
    cases require_admin s uidOpt with
    | error c => exact ⟨he, hs⟩
    | ok uid => exact ⟨he, hs⟩
  | done_session_step uidOpt template_id day now =>
    unfold done_session
    cases uidOpt with
    | none => exact ⟨he, hs⟩
    | some uid =>
      by_cases h0 : uid = 0
      · simpa [require_user_id, h0] using And.intro he hs
      · simp only [require_user_id, if_neg h0]
        exact close_owned s uid template_id day now he hs

/-- Every state reachable from a fresh deployment satisfies the ownership
invariant. -/
theorem reachable_owned {s : Store} (h : Reachable s) :
    entries_owned s ∧ sessions_owned s := by
  unfold Reachable at h
  induction h with
  | refl =>
    constructor
    · intro e hmem
      have : initStore.set_entries = [] := rfl
      rw [this] at hmem
      cases hmem
    · intro r hmem
      have : initStore.workout_sessions = [] := rfl
      rw [this] at hmem
      cases hmem
  | tail hsteps hstep ih => exact app_step_owned hstep ih.1 ih.2

/-- C8: in every reachable state, every request leaves the existing
`set_entries` rows untouched — the table only ever grows at the end, so each
pre-existing row stays present and field-for-field identical. -/
theorem set_entries_append_only {s s' : Store} (hr : Reachable s)
    (h : AppStep s s') : ∃ t, s'.set_entries = s.set_entries ++ t := by
  obtain ⟨he, hs⟩ := reachable_owned hr
  have hid : ∀ t : Store, t.set_entries = s.set_entries →
      ∃ t', t.set_entries = s.set_entries ++ t' := by
    intro t h1
    exact ⟨[], by rw [h1, List.append_nil]⟩
  cases h with
  | read => exact hid s rfl
  | login_step email verified =>
    unfold login
    cases get_user_by_email s (normalize_email email) with
    | none => exact hid s rfl
    | some usr =>
      cases verified with
      | false => exact hid s rfl
      | true =>
        refine hid _ ?_
        show (claim_legacy_rows usr.id s).set_entries = s.set_entries
        rw [claim_eq_self_of_owned usr.id s he hs]
  | register_step email password ph now =>
    unfold register
    by_cases hp : password.length < 6
    · simp only [hp, if_true]
      exact hid s rfl
    · cases hfind : get_user_by_email s (normalize_email email) with
      | some usr =>
        simp only [hp, if_false, hfind]
        exact hid s rfl
      | none =>
        simp only [hp, if_false, hfind]
        refine hid _ ?_
        show (claim_legacy_rows (create_user s (normalize_email email) ph now).1
            (create_user s (normalize_email email) ph now).2).set_entries
          = s.set_entries
        have hcu : (create_user s (normalize_email email) ph now).2.set_entries
            = s.set_entries := rfl
        have he' : entries_owned (create_user s (normalize_email email) ph now).2 := by
          intro e hmem
          exact he e (hcu ▸ hmem)
        have hs' : sessions_owned (create_user s (normalize_email email) ph now).2 := by
          intro r hmem
          exact hs r hmem
        rw [claim_eq_self_of_owned _ _ he' hs', hcu]
  | log_set_step uidOpt template_id workout exercise weight reps day now =>
    unfold log_set
    cases uidOpt with
    | none => exact hid s rfl
    | some uid =>
      by_cases h0 : uid = 0
      · simp only [require_user_id, if_pos h0]
        exact hid s rfl
      · simp only [require_user_id, if_neg h0]
        by_cases hrange : weight < 0 ∨ weight > 2000 ∨ reps < 1 ∨ reps > 200
        · simp only [hrange, if_true]
          exact hid s rfl
        · simp only [hrange, if_false]
          have hE := (ensure_preserves_entries s uid template_id workout day now).1
          exact ⟨[⟨(ensure_active_session s uid template_id workout day
              now).2.next_entry_id, day, workout, exercise, weight, reps, now,
              some (ensure_active_session s uid template_id workout day now).1,
              some uid⟩], by rw [← hE]⟩
  | add_exercise_step uidOpt template_id exercise_name =>
    unfold add_exercise
    cases require_admin s uidOpt with
    | error c => exact hid s rfl
    | ok uid =>
      by_cases hn : py_strip exercise_name = ""
      · simp only [hn, if_true]
        exact hid s rfl
      · simp only [hn, if_false]
        have hins : (insert_exercise_if_new s (py_strip exercise_name)).set_entries
            = s.set_entries := by
          unfold insert_exercise_if_new
          by_cases hany : s.exercises.any (fun e =>
            decide (e.name = py_strip exercise_name)) <;> simp [hany]
        cases (insert_exercise_if_new s (py_strip exercise_name)).exercises.find?
            (fun e => decide (e.name = py_strip exercise_name)) with
        | none => exact hid _ hins
        | some ex =>
          by_cases hany2 : (insert_exercise_if_new s
              (py_strip exercise_name)).template_exercises.any (fun te =>
                decide (te.template_id = template_id ∧ te.exercise_id = ex.id)) <;>
            simp only [hany2, if_true, if_false] <;> exact hid _ hins
  | remove_exercise_step uidOpt template_id exercise_id =>
    unfold remove_exercise
    cases require_admin s uidOpt with
    | error c => exact hid s rfl
    | ok uid => exact hid _ rfl
  | done_session_step uidOpt template_id day now =>
    unfold done_session
    cases uidOpt with
    | none => exact hid s rfl
    | some uid =>
      by_cases h0 : uid = 0
      · simp only [require_user_id, if_pos h0]
        exact hid s rfl
      · simp only [require_user_id, if_neg h0]
        refine hid _ ?_
        unfold close_active_session
        cases get_active_session_id s uid template_id day with
        | none => rfl
        | some sid =>
          by_cases hz : sid = 0 <;> simp [hz]

/-- C8 witness: the fresh deployment is reachable, and a concrete logged set on
it only appends. -/
theorem set_entries_append_only_witness :
    ∃ t, (log_set initStore (some 1) 1 ("Push") ("Bench Press") 100 5 ("d")
      ("n")).2.set_entries = initStore.set_entries ++ t :=
  set_entries_append_only (Relation.ReflTransGen.refl)
    (AppStep.log_set_step initStore (some 1) 1 ("Push") ("Bench Press") 100 5
      ("d") ("n"))

/-- Rows with pairwise distinct keys are determined by their key. -/
theorem nodup_map_inj {α β : Type} {f : α → β} {l : List α}
    (h : (l.map f).Nodup) {a b : α} (ha : a ∈ l) (hb : b ∈ l)
    (hab : f a = f b) : a = b :=
  List.inj_on_of_nodup_map h ha hb hab

/-! ## C7: legacy rows are claimed exactly once -/

/-- C7: `claim_legacy_rows uid` gives every unowned row to `uid` and keeps
every owned row untouched; and once a claim has happened, the claim performed
by any later login or registration (on any state the app can reach from there)
changes nothing. -/
theorem legacy_rows_claimed_once (s : Store) (uid : Nat) :
    (∀ e ∈ s.set_entries,
      (e.user_id = none →
        ({ e with user_id := some uid } : SetEntry) ∈
          (claim_legacy_rows uid s).set_entries)
      ∧ (e.user_id ≠ none → e ∈ (claim_legacy_rows uid s).set_entries))
    ∧ (∀ r ∈ s.workout_sessions,
      (r.user_id = none →
        ({ r with user_id := some uid } : WorkoutSession) ∈
          (claim_legacy_rows uid s).workout_sessions)
      ∧ (r.user_id ≠ none → r ∈ (claim_legacy_rows uid s).workout_sessions))
    ∧ (∀ s2, Relation.ReflTransGen AppStep (claim_legacy_rows uid s) s2 →
        ∀ v, claim_legacy_rows v s2 = s2) := by
  refine ⟨?_, ?_, ?_⟩
  · intro e hmem
    constructor
    · intro hnone
      have h2 : (if e.user_id = none then
            ({ e with user_id := some uid } : SetEntry) else e) ∈
          s.set_entries.map (fun x =>
            if x.user_id = none then { x with user_id := some uid } else x) :=
        List.mem_map_of_mem _ hmem
      rw [if_pos hnone] at h2
      exact h2
    · intro hsome
      have h2 : (if e.user_id = none then
            ({ e with user_id := some uid } : SetEntry) else e) ∈
          s.set_entries.map (fun x =>
            if x.user_id = none then { x with user_id := some uid } else x) :=
        List.mem_map_of_mem _ hmem
      rw [if_neg hsome] at h2
      exact h2
  · intro r hmem
    constructor
    · intro hnone
      have h2 : (if r.user_id = none then
            ({ r with user_id := some uid } : WorkoutSession) else r) ∈
          s.workout_sessions.map (fun x =>
            if x.user_id = none then { x with user_id := some uid } else x) :=
        List.mem_map_of_mem _ hmem
      rw [if_pos hnone] at h2
      exact h2
    · intro hsome
      have h2 : (if r.user_id = none then
            ({ r with user_id := some uid } : WorkoutSession) else r) ∈
          s.workout_sessions.map (fun x =>
            if x.user_id = none then { x with user_id := some uid } else x) :=
        List.mem_map_of_mem _ hmem
      rw [if_neg hsome] at h2
      exact h2
  · intro s2 hsteps v
    have h2 : entries_owned s2 ∧ sessions_owned s2 := by
      induction hsteps with
      | refl =>
        exact ⟨claim_makes_entries_owned uid s, claim_makes_sessions_owned uid s⟩
      | tail hst hstep ih => exact app_step_owned hstep ih.1 ih.2
    exact claim_eq_self_of_owned v s2 h2.1 h2.2

/-- C7 witness: on a store with one legacy entry and one legacy session,
user 1's claim assigns both rows, and a subsequent claim by user 2 changes
nothing. -/
theorem legacy_rows_claimed_once_witness :
    (⟨1, "d", "Push", "Bench Press", (100 : Rat), 5, "t", none, some 1⟩ :
        SetEntry) ∈ (claim_legacy_rows 1 legacy_demo_store).set_entries
    ∧ claim_legacy_rows 2 (claim_legacy_rows 1 legacy_demo_store)
        = claim_legacy_rows 1 legacy_demo_store := by
  constructor
  · exact ((legacy_rows_claimed_once legacy_demo_store 1).1
      ⟨1, "d", "Push", "Bench Press", 100, 5, "t", none, none⟩ (by decide)).1 rfl
  · exact (legacy_rows_claimed_once legacy_demo_store 1).2.2
      (claim_legacy_rows 1 legacy_demo_store) Relation.ReflTransGen.refl 2

/-! ## C2, C4: session lifecycle -/

/-- Every row in `open_sessions` is open and owned by the key's user. -/
theorem open_sessions_spec (s : Store) (u tid : Nat) (day : String)
    {r : WorkoutSession} (h : r ∈ open_sessions s u tid day) :
    r ∈ s.workout_sessions ∧ r.user_id = some u ∧ r.template_id = tid ∧
      r.day = day ∧ r.ended_at = none := by
  have h2 := List.mem_filter.mp h
  exact ⟨h2.1, of_decide_eq_true h2.2⟩

/-- When exactly one session is open for the key, `ensure_active_session`
returns its id and leaves the store unchanged. -/
theorem ensure_of_open_singleton (s : Store) (u tid : Nat)
    (wname day now : String) (r : WorkoutSession) (hwf : sessions_wf s)
    (hopen : open_sessions s u tid day = [r]) :
    ensure_active_session s u tid wname day now = (r.id, s) := by
  have hget : get_active_session_id s u tid day = some r.id := by
    unfold get_active_session_id
    rw [hopen]
    rfl
  have hrmem : r ∈ s.workout_sessions :=
    (open_sessions_spec s u tid day (hopen ▸ List.mem_singleton_self r)).1
  have hne : r.id ≠ 0 := by
    have := (hwf.2.1 r hrmem).1
    omega
  simp [ensure_active_session, hget, hne]

/-- When no session is open for the key, `ensure_active_session` inserts a
fresh one. -/
theorem ensure_of_open_nil (s : Store) (u tid : Nat) (wname day now : String)
    (hopen : open_sessions s u tid day = []) :
    ensure_active_session s u tid wname day now
      = create_session s u tid wname day now := by
  have hget : get_active_session_id s u tid day = none := by
    unfold get_active_session_id
    rw [hopen]
    rfl
  simp [ensure_active_session, hget]

theorem create_session_open (s : Store) (u tid : Nat) (wname day now : String) :
    open_sessions (create_session s u tid wname day now).2 u tid day
      = open_sessions s u tid day ++
        [⟨s.next_session_id, day, tid, wname, now, none, some u⟩] := by
  unfold create_session open_sessions
  rw [List.filter_append]
  congr 1
  simp [session_matches_open]

theorem create_session_wf (s : Store) (u tid : Nat) (wname day now : String)
    (hwf : sessions_wf s) :
    sessions_wf (create_session s u tid wname day now).2 := by
  obtain ⟨h1, h2, h3⟩ := hwf
  refine ⟨Nat.le_succ_of_le h1, ?_, ?_⟩
  · intro r hr
    rcases List.mem_append.mp hr with hr | hr
    · have := h2 r hr
      exact ⟨this.1, Nat.lt_succ_of_lt this.2⟩
    · have hre : r = ⟨s.next_session_id, day, tid, wname, now, none, some u⟩ := by
        simpa using hr
      rw [hre]
      exact ⟨h1, Nat.lt_succ_self _⟩
  · show ((s.workout_sessions ++ [_]).map WorkoutSession.id).Nodup
    rw [List.map_append]
    rw [List.nodup_append]
    refine ⟨h3, List.nodup_singleton _, ?_⟩
    intro x hx hx'
    obtain ⟨y, hy, hyx⟩ := List.mem_map.mp hx
    have hxid : x = s.next_session_id := by simpa using hx'
    have := (h2 y hy).2
    omega

/-- Under the one-open-row state, every further `ensure_active_session` call is
a no-op returning the same id. -/
theorem iterate_ensure_const (s : Store) (u tid : Nat) (wname day : String)
    (nows : List String) (r : WorkoutSession) (hwf : sessions_wf s)
    (hopen : open_sessions s u tid day = [r]) :
    iterate_ensure s u tid wname day nows
      = (List.replicate nows.length r.id, s) := by
  induction nows with
  | nil => rfl
  | cons now rest ih =>
    simp only [iterate_ensure]
    rw [ensure_of_open_singleton s u tid wname day now r hwf hopen, ih]
    simp [List.replicate_succ]

/-- C2: starting from a well-formed store with at most one open session for the
key, any nonempty sequence of `ensure_active_session` calls on that key leaves
exactly one open session row for it, and every call returned that row's id. -/
theorem ensure_active_session_idempotent (s : Store) (u tid : Nat)
    (wname day : String) (nows : List String) (hwf : sessions_wf s)
    (hinv : (open_sessions s u tid day).length ≤ 1) (hn : nows ≠ []) :
    ∃ r : WorkoutSession,
      open_sessions (iterate_ensure s u tid wname day nows).2 u tid day = [r]
      ∧ r.ended_at = none
      ∧ (iterate_ensure s u tid wname day nows).1
          = List.replicate nows.length r.id := by
  cases nows with
  | nil => exact absurd rfl hn
  | cons now rest =>
    rcases hcs : open_sessions s u tid day with _ | ⟨r0, rtl⟩
    · have hcr := create_session_open s u tid wname day now
      rw [hcs, List.nil_append] at hcr
      have hwf' := create_session_wf s u tid wname day now hwf
      have hstep : ensure_active_session s u tid wname day now
          = create_session s u tid wname day now :=
        ensure_of_open_nil s u tid wname day now hcs
      have hconst := iterate_ensure_const
        (create_session s u tid wname day now).2 u tid wname day rest
        ⟨s.next_session_id, day, tid, wname, now, none, some u⟩ hwf' hcr
      refine ⟨⟨s.next_session_id, day, tid, wname, now, none, some u⟩, ?_, rfl, ?_⟩
      · simp only [iterate_ensure]
        rw [hstep, hconst]
        exact hcr
      · simp only [iterate_ensure]
        rw [hstep, hconst]
        simp [create_session, List.replicate_succ]
    · have hrtl : rtl = [] := by
        rw [hcs] at hinv
        simpa using hinv
      subst hrtl
      have hconst := iterate_ensure_const s u tid wname day (now :: rest) r0 hwf hcs
      rw [hconst]
      exact ⟨r0, hcs,
        (open_sessions_spec s u tid day (hcs ▸ List.mem_singleton_self r0)).2.2.2.2,
        rfl⟩

/-- C2 witness: two calls on the fresh empty store yield one open session with
id 1, both calls returning 1. -/
theorem ensure_active_session_idempotent_witness :
    (sessions_wf emptyStore
      ∧ (open_sessions emptyStore 1 2 ("2026-01-01")).length ≤ 1
      ∧ (["n1", "n2"] : List String) ≠ [])
    ∧ ∃ r : WorkoutSession,
      open_sessions (iterate_ensure emptyStore 1 2 ("Push") ("2026-01-01")
        ["n1", "n2"]).2 1 2 ("2026-01-01") = [r]
      ∧ r.ended_at = none
      ∧ (iterate_ensure emptyStore 1 2 ("Push") ("2026-01-01") ["n1", "n2"]).1
          = List.replicate (["n1", "n2"] : List String).length r.id :=
  ⟨⟨by decide, by decide, by decide⟩,
   ensure_active_session_idempotent emptyStore 1 2 ("Push") ("2026-01-01")
     ["n1", "n2"] (by decide) (by decide) (by decide)⟩

/-- C4: with one open session `r` for the key, closing and then ensuring yields
a fresh open session with a new id: the close returns `r.id`, the new id
differs from `r.id`, the old row stays closed (ended at the closing time), and
the only open row for the key is the fresh one. -/
theorem close_then_ensure_fresh (s : Store) (u tid : Nat)
    (wname day now1 now2 : String) (r : WorkoutSession) (hwf : sessions_wf s)
    (hopen : open_sessions s u tid day = [r]) :
    (close_active_session s u tid day now1).1 = some r.id
    ∧ (ensure_active_session (close_active_session s u tid day now1).2 u tid
        wname day now2).1 ≠ r.id
    ∧ open_sessions (ensure_active_session (close_active_session s u tid day
        now1).2 u tid wname day now2).2 u tid day
      = [⟨s.next_session_id, day, tid, wname, now2, none, some u⟩]
    ∧ (∀ r2 ∈ (ensure_active_session (close_active_session s u tid day
        now1).2 u tid wname day now2).2.workout_sessions,
        r2.id = r.id → r2.ended_at = some now1) := by
  have hget : get_active_session_id s u tid day = some r.id := by
    unfold get_active_session_id
    rw [hopen]
    rfl
  obtain ⟨hrmem, hruser, hrtid, hrday, hrend⟩ :=
    open_sessions_spec s u tid day (hopen ▸ List.mem_singleton_self r)
  have hrlt := hwf.2.1 r hrmem
  have hne : r.id ≠ 0 := by omega
  have hclose : close_active_session s u tid day now1
      = (some r.id,
         { s with workout_sessions := s.workout_sessions.map (fun x =>
             if x.id = r.id ∧ x.user_id = some u then { x with ended_at := some now1 }
             else x) }) := by
    simp [close_active_session, hget, hne]
  have honly : ∀ x ∈ s.workout_sessions,
      decide (session_matches_open u tid day x) = true → x = r := by
    intro x hx hpx
    have : x ∈ open_sessions s u tid day := List.mem_filter.mpr ⟨hx, hpx⟩
    rw [hopen] at this
    simpa using this
  have hopen1 : open_sessions (close_active_session s u tid day now1).2 u tid day
      = [] := by
    rw [hclose]
    unfold open_sessions
    rw [List.filter_eq_nil_iff]
    intro x hx
    obtain ⟨y, hy, hfy⟩ := List.mem_map.mp hx
    by_cases hc : y.id = r.id ∧ y.user_id = some u
    · rw [if_pos hc] at hfy
      rw [← hfy]
      simp [session_matches_open]
    · rw [if_neg hc] at hfy
      rw [← hfy]
      intro hpy
      have hyr := honly y hy hpy
      refine hc ?_
      rw [hyr]
      exact ⟨rfl, hruser⟩
  have hens : ensure_active_session (close_active_session s u tid day now1).2
      u tid wname day now2
      = create_session (close_active_session s u tid day now1).2 u tid wname
          day now2 :=
    ensure_of_open_nil _ u tid wname day now2 hopen1
  have hnext : (close_active_session s u tid day now1).2.next_session_id
      = s.next_session_id := by
    rw [hclose]
  refine ⟨by rw [hclose], ?_, ?_, ?_⟩
  · rw [hens]
    show (close_active_session s u tid day now1).2.next_session_id ≠ r.id
    rw [hnext]
    omega
  · rw [hens]
    rw [create_session_open]
    rw [hopen1, List.nil_append, hnext]
  · intro r2 hr2 hid2
    rw [hens] at hr2
    have hr2' : r2 ∈ (close_active_session s u tid day now1).2.workout_sessions
        ++ [⟨(close_active_session s u tid day now1).2.next_session_id, day,
            tid, wname, now2, none, some u⟩] := hr2
    rcases List.mem_append.mp hr2' with hr2m | hr2m
    · rw [hclose] at hr2m
      obtain ⟨y, hy, hfy⟩ := List.mem_map.mp hr2m
      by_cases hc : y.id = r.id ∧ y.user_id = some u
      · rw [if_pos hc] at hfy
        rw [← hfy]
      · rw [if_neg hc] at hfy
        have hyr : y = r :=
          nodup_map_inj hwf.2.2 hy hrmem (by rw [hfy, hid2])
        refine absurd ?_ hc
        rw [hyr]
        exact ⟨rfl, hruser⟩
    · have : r2 = ⟨(close_active_session s u tid day now1).2.next_session_id,
          day, tid, wname, now2, none, some u⟩ := by simpa using hr2m
      have hid3 : s.next_session_id = r.id := by
        rw [this] at hid2
        simpa [hnext] using hid2
      exact absurd hid3 (by omega)

/-- C4 witness: on a store with exactly one open session for the key, closing
and re-ensuring creates a distinct fresh session. -/
theorem close_then_ensure_fresh_witness :
    (sessions_wf legacy_session_store
      ∧ open_sessions legacy_session_store 1 2 ("2026-01-01")
          = [⟨1, "2026-01-01", 2, "Push", "t0", none, some 1⟩])
    ∧ (close_active_session legacy_session_store 1 2 ("2026-01-01") ("n1")).1
        = some 1
    ∧ (ensure_active_session (close_active_session legacy_session_store 1 2
        ("2026-01-01") ("n1")).2 1 2 ("Push") ("2026-01-01") ("n2")).1 ≠ 1 := by
  have h := close_then_ensure_fresh legacy_session_store 1 2 ("Push")
    ("2026-01-01") ("n1") ("n2")
    ⟨1, "2026-01-01", 2, "Push", "t0", none, some 1⟩ (by decide) (by decide)
  exact ⟨⟨by decide, by decide⟩, h.1, h.2.1⟩

/-! ## C3: last-set lookup -/

theorem mem_filtered_iff {entries : List SetEntry} {u : Nat}
    {names : List String} {x : SetEntry} :
    x ∈ filtered_entries entries u names ↔
      x ∈ entries ∧ x.user_id = some u ∧ x.exercise ∈ names := by
  unfold filtered_entries
  rw [List.mem_filter, decide_eq_true_eq]

theorem mem_user_exercise_iff {entries : List SetEntry} {u : Nat}
    {names : List String} {name : String} {x : SetEntry} :
    x ∈ user_exercise_entries entries u names name ↔
      x ∈ entries ∧ x.user_id = some u ∧ x.exercise ∈ names ∧
        x.exercise = name := by
  unfold user_exercise_entries
  rw [List.mem_filter, decide_eq_true_eq, mem_filtered_iff]
  constructor
  · rintro ⟨⟨h1, h2, h3⟩, h4⟩
    exact ⟨h1, h2, h3, h4⟩
  · rintro ⟨h1, h2, h3, h4⟩
    exact ⟨⟨h1, h2, h3⟩, h4⟩

/-- Any row accepted by the `fetch_last_for_exercises` joins whose exercise is
`name` belongs to the user's group for `name` and carries the group's maximal
id. -/
theorem last_qualifying_spec {entries : List SetEntry} {u : Nat}
    {names : List String} {name : String}
    (hids : (entries.map SetEntry.id).Nodup) {se : SetEntry}
    (hse : se ∈ entries) (hok : last_row_ok entries u names se)
    (hname : se.exercise = name) :
    se ∈ user_exercise_entries entries u names name ∧
    sqlMax ((user_exercise_entries entries u names name).map SetEntry.id)
      = some se.id := by
  obtain ⟨⟨g, hgF, hmax⟩, huser⟩ := hok
  obtain ⟨hmem_id, _⟩ := sqlMax_eq_some_iff.mp hmax
  obtain ⟨t, htF, htid⟩ := List.mem_map.mp hmem_id
  have htfilter := List.mem_filter.mp htF
  have htg : t.exercise = g.exercise := of_decide_eq_true htfilter.2
  have hte : t ∈ entries := (mem_filtered_iff.mp htfilter.1).1
  have hts : t = se := nodup_map_inj hids hte hse htid
  rw [hts] at htg
  have hgname : g.exercise = name := by rw [← htg, hname]
  rw [hgname] at hmax
  have hseG : se ∈ user_exercise_entries entries u names name := by
    rw [hts] at htfilter
    unfold user_exercise_entries
    exact List.mem_filter.mpr ⟨htfilter.1, decide_eq_true hname⟩
  exact ⟨hseG, hmax⟩

/-- C3: the last-set lookup maps exactly the queried exercise names that have
at least one entry for the user, each to its maximum-id entry, regardless of
weight and reps. -/
theorem fetch_last_spec (entries : List SetEntry) (u : Nat)
    (names : List String) (name : String)
    (hids : (entries.map SetEntry.id).Nodup) :
    ((name ∈ names ∧ ∃ e0 ∈ entries, e0.user_id = some u ∧ e0.exercise = name) →
      ∃ e ∈ entries, e.user_id = some u ∧ e.exercise = name
        ∧ fetch_last_for_exercises entries u names name = some e.statRow
        ∧ ∀ e2 ∈ entries, e2.user_id = some u → e2.exercise = name →
            e2.id ≤ e.id)
    ∧ (¬(name ∈ names ∧ ∃ e0 ∈ entries, e0.user_id = some u ∧
          e0.exercise = name) →
        fetch_last_for_exercises entries u names name = none) := by
  constructor
  · rintro ⟨hnm, e0, he0, hu0, hx0⟩
    have hG0 : e0 ∈ user_exercise_entries entries u names name :=
      mem_user_exercise_iff.mpr ⟨he0, hu0, hx0 ▸ hnm, hx0⟩
    have hGne : (user_exercise_entries entries u names name).map SetEntry.id
        ≠ [] := by
      intro hnil
      rw [List.map_eq_nil_iff] at hnil
      rw [hnil] at hG0
      cases hG0
    obtain ⟨M, hM⟩ := sqlMax_of_ne_nil hGne
    obtain ⟨hMmem, hMub⟩ := sqlMax_eq_some_iff.mp hM
    obtain ⟨eMax, hmemG, hid⟩ := List.mem_map.mp hMmem
    obtain ⟨hemem, heuser, _, hename⟩ := mem_user_exercise_iff.mp hmemG
    have hok : last_row_ok entries u names eMax := by
      refine ⟨⟨eMax, (List.mem_filter.mp hmemG).1, ?_⟩, heuser⟩
      rw [hename]
      show sqlMax ((user_exercise_entries entries u names name).map SetEntry.id)
        = some eMax.id
      rw [hM, hid]
    refine ⟨eMax, hemem, heuser, hename, ?_, ?_⟩
    · have hnames_ne : names ≠ [] := List.ne_nil_of_mem hnm
      unfold fetch_last_for_exercises
      rw [if_neg hnames_ne]
      apply toDict_unique
      · intro row hrow hrowname
        obtain ⟨se, hseF, hserow⟩ := List.mem_map.mp hrow
        have hsemem := List.mem_filter.mp hseF
        have hok_se := of_decide_eq_true hsemem.2
        have hsename : se.exercise = name := by
          rw [← hserow] at hrowname
          exact hrowname
        obtain ⟨hseG, hseMax⟩ :=
          last_qualifying_spec hids hsemem.1 hok_se hsename
        have hseM : se.id = M := by
          rw [hseMax] at hM
          exact Option.some.inj hM
        have hse_eq : se = eMax :=
          nodup_map_inj hids hsemem.1 hemem (by rw [hseM, ← hid])
        rw [← hserow, hse_eq]
      · exact List.mem_map_of_mem SetEntry.statRow
          (List.mem_filter.mpr ⟨hemem, decide_eq_true hok⟩)
      · exact hename
    · intro e2 he2 hu2 hx2
      have hG2 : e2 ∈ user_exercise_entries entries u names name :=
        mem_user_exercise_iff.mpr ⟨he2, hu2, hx2 ▸ hnm, hx2⟩
      rw [hid]
      exact hMub e2.id (List.mem_map_of_mem SetEntry.id hG2)
  · intro hnot
    by_cases hnn : names = []
    · unfold fetch_last_for_exercises
      rw [if_pos hnn]
    · unfold fetch_last_for_exercises
      rw [if_neg hnn, toDict_eq_none_iff]
      intro row hrow hrowname
      obtain ⟨se, hseF, hserow⟩ := List.mem_map.mp hrow
      have hsemem := List.mem_filter.mp hseF
      have hok_se := of_decide_eq_true hsemem.2
      have hsename : se.exercise = name := by
        rw [← hserow] at hrowname
        exact hrowname
      obtain ⟨hseG, _⟩ := last_qualifying_spec hids hsemem.1 hok_se hsename
      obtain ⟨h1, h2, h3, h4⟩ := mem_user_exercise_iff.mp hseG
      exact hnot ⟨h4 ▸ h3, se, h1, h2, h4⟩

/-- C3 witness: for the Bench Press entries, the last-set lookup returns the
id-3 row (90kg x 10) even though it is lighter, and a queried name without
entries is absent. -/
theorem fetch_last_spec_witness :
    ((demo_bench.map SetEntry.id).Nodup
      ∧ ("Bench Press" ∈ (["Bench Press", "Squat"] : List String)))
    ∧ fetch_last_for_exercises demo_bench 1 ["Bench Press", "Squat"]
        ("Bench Press") = some ⟨"Bench Press", 90, 10, "d3"⟩
    ∧ fetch_last_for_exercises demo_bench 1 ["Bench Press", "Squat"] ("Squat")
        = none := by
  refine ⟨⟨by decide, by decide⟩, ?_, ?_⟩
  · obtain ⟨e, hmem, -, -, hfetch, hub⟩ :=
      (fetch_last_spec demo_bench 1 ["Bench Press", "Squat"] ("Bench Press")
        (by decide)).1
        ⟨by decide, ⟨1, "d1", "Push", "Bench Press", 100, 5, "t1", none, some 1⟩,
          by decide, by decide, by decide⟩
    have he3 : e = ⟨3, "d3", "Push", "Bench Press", 90, 10, "t3", none, some 1⟩ := by
      have h3 := hub ⟨3, "d3", "Push", "Bench Press", 90, 10, "t3", none, some 1⟩
        (by decide) (by decide) (by decide)
      fin_cases hmem <;> first
        | rfl
        | exact absurd h3 (by decide)
    rw [hfetch, he3]
    rfl
  · exact (fetch_last_spec demo_bench 1 ["Bench Press", "Squat"] ("Squat")
      (by decide)).2 (by decide)

/-! ## C10: the lookups are functions of the user's own rows only -/

theorem filtered_entries_eq_filter_filter (entries : List SetEntry) (u : Nat)
    (names : List String) :
    filtered_entries entries u names
      = (entries.filter (fun se => decide (se.user_id = some u))).filter
          (fun se => decide (se.exercise ∈ names)) := by
  unfold filtered_entries
  rw [List.filter_filter]
  apply List.filter_congr
  intro a _
  by_cases h1 : a.user_id = some u <;> by_cases h2 : a.exercise ∈ names <;>
    simp [h1, h2]

/-- Filtering by a predicate `P` factors through any weaker predicate `Q`. -/
theorem filter_restrict (l : List SetEntry) (P Q : SetEntry → Prop)
    [DecidablePred P] [DecidablePred Q] (himp : ∀ a, P a → Q a) :
    l.filter (fun a => decide (P a))
      = (l.filter (fun a => decide (Q a))).filter (fun a => decide (P a)) := by
  rw [List.filter_filter]
  apply List.filter_congr
  intro a _
  by_cases hp : P a
  · simp [hp, himp a hp]
  · simp [hp]

/-- C10: two stores agreeing on user `u`'s set entries give identical last-set
and PR lookups for `u` — no other user's rows can influence them. -/
theorem fetch_depends_only_on_user_rows (e1 e2 : List SetEntry) (u : Nat)
    (names : List String)
    (h : e1.filter (fun se => decide (se.user_id = some u))
       = e2.filter (fun se => decide (se.user_id = some u))) :
    fetch_last_for_exercises e1 u names = fetch_last_for_exercises e2 u names
    ∧ fetch_pr_for_exercises e1 u names = fetch_pr_for_exercises e2 u names := by
  have hF : filtered_entries e1 u names = filtered_entries e2 u names := by
    rw [filtered_entries_eq_filter_filter, filtered_entries_eq_filter_filter, h]
  have hlast : ∀ se, last_row_ok e1 u names se ↔ last_row_ok e2 u names se := by
    intro se
    unfold last_row_ok
    rw [hF]
  have hpr : ∀ se, pr_row_ok e1 u names se ↔ pr_row_ok e2 u names se := by
    intro se
    unfold pr_row_ok
    rw [hF]
  have hrows_last : e1.filter (fun se => decide (last_row_ok e1 u names se))
      = e2.filter (fun se => decide (last_row_ok e2 u names se)) := by
    rw [filter_restrict e1 _ (fun se => se.user_id = some u)
        (fun se hse => hse.2),
      filter_restrict e2 _ (fun se => se.user_id = some u)
        (fun se hse => hse.2), h]
    apply List.filter_congr
    intro a _
    exact decide_eq_decide.mpr (hlast a)
  have hrows_pr : e1.filter (fun se => decide (pr_row_ok e1 u names se))
      = e2.filter (fun se => decide (pr_row_ok e2 u names se)) := by
    rw [filter_restrict e1 _ (fun se => se.user_id = some u)
        (fun se hse => hse.2.2.2),
      filter_restrict e2 _ (fun se => se.user_id = some u)
        (fun se hse => hse.2.2.2), h]
    apply List.filter_congr
    intro a _
    exact decide_eq_decide.mpr (hpr a)
  constructor
  · unfold fetch_last_for_exercises
    rw [hrows_last]
  · unfold fetch_pr_for_exercises
    rw [hrows_pr]

/-- C10 witness: adding another user's heavier Bench Press row changes neither
lookup for user 1. -/
theorem fetch_depends_only_on_user_rows_witness :
    (demo_scope1.filter (fun se => decide (se.user_id = some 1))
      = demo_scope2.filter (fun se => decide (se.user_id = some 1)))
    ∧ fetch_last_for_exercises demo_scope1 1 ["Bench Press"]
        = fetch_last_for_exercises demo_scope2 1 ["Bench Press"]
    ∧ fetch_pr_for_exercises demo_scope1 1 ["Bench Press"]
        = fetch_pr_for_exercises demo_scope2 1 ["Bench Press"] := by
  have h := fetch_depends_only_on_user_rows demo_scope1 demo_scope2 1
    ["Bench Press"] (by decide)
  exact ⟨by decide, h.1, h.2⟩

/-! ## C1: PR lookup is the lexicographic maximum -/

/-- Filtering by a conjunction is filtering twice. -/
theorem filter_and_decompose (l : List SetEntry) (P Q : SetEntry → Prop)
    [DecidablePred P] [DecidablePred Q] :
    l.filter (fun a => decide (P a ∧ Q a))
      = (l.filter (fun a => decide (P a))).filter (fun a => decide (Q a)) := by
  rw [List.filter_filter]
  apply List.filter_congr
  intro a _
  by_cases hp : P a <;> by_cases hq : Q a <;> simp [hp, hq]

/-- For a row whose exercise is `name`, the three `fetch_pr_for_exercises` join
conditions are the staged maxima over the user's group for `name`. -/
theorem pr_row_ok_iff_grouped {entries : List SetEntry} {u : Nat}
    {names : List String} {name : String} {se : SetEntry}
    (hse_ex : se.exercise = name) :
    pr_row_ok entries u names se ↔
      (sqlMax ((user_exercise_entries entries u names name).map
          SetEntry.weight) = some se.weight
       ∧ sqlMax (((user_exercise_entries entries u names name).filter
           (fun r => decide (r.weight = se.weight))).map SetEntry.reps)
         = some se.reps
       ∧ sqlMax ((((user_exercise_entries entries u names name).filter
           (fun r => decide (r.weight = se.weight))).filter
             (fun r => decide (r.reps = se.reps))).map SetEntry.id)
         = some se.id
       ∧ se.user_id = some u) := by
  unfold pr_row_ok user_exercise_entries
  simp only [hse_ex, filter_and_decompose]

/-- C1: for every queried exercise with at least one entry for the user, the PR
lookup returns the entry that is strictly maximal for the lexicographic order
(weight, then reps, then id) among the user's entries for that exercise. -/
theorem fetch_pr_spec (entries : List SetEntry) (u : Nat)
    (names : List String) (name : String)
    (hids : (entries.map SetEntry.id).Nodup) (hnm : name ∈ names)
    (hne : ∃ e0 ∈ entries, e0.user_id = some u ∧ e0.exercise = name) :
    ∃ e ∈ entries, e.user_id = some u ∧ e.exercise = name
      ∧ fetch_pr_for_exercises entries u names name = some e.statRow
      ∧ ∀ e2 ∈ entries, e2.user_id = some u → e2.exercise = name → e2 ≠ e →
          lexLT e2 e := by
  obtain ⟨e0, he0, hu0, hx0⟩ := hne
  have hG0 : e0 ∈ user_exercise_entries entries u names name :=
    mem_user_exercise_iff.mpr ⟨he0, hu0, hx0 ▸ hnm, hx0⟩
  obtain ⟨W, hW⟩ := sqlMax_of_ne_nil (l :=
      (user_exercise_entries entries u names name).map SetEntry.weight)
    (by
      intro hnil
      rw [List.map_eq_nil_iff] at hnil
      rw [hnil] at hG0
      cases hG0)
  obtain ⟨hWmem, hWub⟩ := sqlMax_eq_some_iff.mp hW
  obtain ⟨gw, hgwG, hgww⟩ := List.mem_map.mp hWmem
  have hgwG2 : gw ∈ (user_exercise_entries entries u names name).filter
      (fun r => decide (r.weight = W)) :=
    List.mem_filter.mpr ⟨hgwG, decide_eq_true hgww⟩
  obtain ⟨R, hR⟩ := sqlMax_of_ne_nil (l :=
      ((user_exercise_entries entries u names name).filter
        (fun r => decide (r.weight = W))).map SetEntry.reps)
    (by
      intro hnil
      rw [List.map_eq_nil_iff] at hnil
      rw [hnil] at hgwG2
      cases hgwG2)
  obtain ⟨hRmem, hRub⟩ := sqlMax_eq_some_iff.mp hR
  obtain ⟨gr, hgrG2, hgrr⟩ := List.mem_map.mp hRmem
  have hgrG3 : gr ∈ ((user_exercise_entries entries u names name).filter
      (fun r => decide (r.weight = W))).filter
        (fun r => decide (r.reps = R)) :=
    List.mem_filter.mpr ⟨hgrG2, decide_eq_true hgrr⟩
  obtain ⟨M, hM3⟩ := sqlMax_of_ne_nil (l :=
      (((user_exercise_entries entries u names name).filter
        (fun r => decide (r.weight = W))).filter
          (fun r => decide (r.reps = R))).map SetEntry.id)
    (by
      intro hnil
      rw [List.map_eq_nil_iff] at hnil
      rw [hnil] at hgrG3
      cases hgrG3)
  obtain ⟨hMmem, hMub⟩ := sqlMax_eq_some_iff.mp hM3
  obtain ⟨eM, heMG3, heMid⟩ := List.mem_map.mp hMmem
  have heMG2 := (List.mem_filter.mp heMG3).1
  have heMr : eM.reps = R := of_decide_eq_true (List.mem_filter.mp heMG3).2
  have heMG := (List.mem_filter.mp heMG2).1
  have heMw : eM.weight = W := of_decide_eq_true (List.mem_filter.mp heMG2).2
  obtain ⟨heM_entries, heM_user, _, heM_name⟩ := mem_user_exercise_iff.mp heMG
  have hok : pr_row_ok entries u names eM := by
    rw [pr_row_ok_iff_grouped heM_name]
    refine ⟨?_, ?_, ?_, heM_user⟩
    · rw [heMw]
      exact hW
    · simp only [heMw, heMr]
      exact hR
    · simp only [heMw, heMr]
      rw [heMid]
      exact hM3
  have huniq_se : ∀ se ∈ entries, pr_row_ok entries u names se →
      se.exercise = name → se = eM := by
    intro se hse hok_se hse_name
    rw [pr_row_ok_iff_grouped hse_name] at hok_se
    obtain ⟨h1, h2, h3, _⟩ := hok_se
    obtain ⟨hmm, _⟩ := sqlMax_eq_some_iff.mp h3
    obtain ⟨t, htG3', htid⟩ := List.mem_map.mp hmm
    have htG := (List.mem_filter.mp (List.mem_filter.mp htG3').1).1
    have hts : t = se :=
      nodup_map_inj hids (mem_user_exercise_iff.mp htG).1 hse htid
    have hseG : se ∈ user_exercise_entries entries u names name := hts ▸ htG
    have hsw : se.weight = W := by
      rw [h1] at hW
      exact Option.some.inj hW
    have hseG2 : se ∈ (user_exercise_entries entries u names name).filter
        (fun r => decide (r.weight = W)) :=
      List.mem_filter.mpr ⟨hseG, decide_eq_true hsw⟩
    have hsr : se.reps = R := by
      simp only [hsw] at h2
      rw [h2] at hR
      exact Option.some.inj hR
    have hseG3 : se ∈ ((user_exercise_entries entries u names name).filter
        (fun r => decide (r.weight = W))).filter
          (fun r => decide (r.reps = R)) :=
      List.mem_filter.mpr ⟨hseG2, decide_eq_true hsr⟩
    have hsid : se.id = M := by
      simp only [hsw, hsr] at h3
      rw [h3] at hM3
      exact Option.some.inj hM3
    exact nodup_map_inj hids hse heM_entries (by rw [hsid, ← heMid])
  refine ⟨eM, heM_entries, heM_user, heM_name, ?_, ?_⟩
  · have hnames_ne : names ≠ [] := List.ne_nil_of_mem hnm
    unfold fetch_pr_for_exercises
    rw [if_neg hnames_ne]
    apply toDict_unique
    · intro row hrow hrowname
      obtain ⟨se, hseF, hserow⟩ := List.mem_map.mp hrow
      have hsemem := List.mem_filter.mp hseF
      have hok_se := of_decide_eq_true hsemem.2
      have hsename : se.exercise = name := by
        rw [← hserow] at hrowname
        exact hrowname
      rw [← hserow, huniq_se se hsemem.1 hok_se hsename]
    · exact List.mem_map_of_mem SetEntry.statRow
        (List.mem_filter.mpr ⟨heM_entries, decide_eq_true hok⟩)
    · exact heM_name
  · intro e2 he2 hu2 hx2 hne2
    have hG2' : e2 ∈ user_exercise_entries entries u names name :=
      mem_user_exercise_iff.mpr ⟨he2, hu2, hx2 ▸ hnm, hx2⟩
    have hw2 : e2.weight ≤ W := hWub e2.weight
      (List.mem_map_of_mem SetEntry.weight hG2')
    by_cases hwe : e2.weight = eM.weight
    · have he2G2 : e2 ∈ (user_exercise_entries entries u names name).filter
          (fun r => decide (r.weight = W)) :=
        List.mem_filter.mpr ⟨hG2', decide_eq_true (by rw [hwe, heMw])⟩
      have hr2 : e2.reps ≤ R := hRub e2.reps
        (List.mem_map_of_mem SetEntry.reps he2G2)
      by_cases hre : e2.reps = eM.reps
      · have he2G3 : e2 ∈ ((user_exercise_entries entries u names name).filter
            (fun r => decide (r.weight = W))).filter
              (fun r => decide (r.reps = R)) :=
          List.mem_filter.mpr ⟨he2G2, decide_eq_true (by rw [hre, heMr])⟩
        have hid2 : e2.id ≤ M := hMub e2.id
          (List.mem_map_of_mem SetEntry.id he2G3)
        have hidne : e2.id ≠ eM.id := fun hh =>
          hne2 (nodup_map_inj hids he2 heM_entries hh)
        refine Or.inr ⟨hwe, Or.inr ⟨hre, ?_⟩⟩
        exact lt_of_le_of_ne (by rw [heMid]; exact hid2) hidne
      · exact Or.inr ⟨hwe, Or.inl
          (lt_of_le_of_ne (by rw [heMr]; exact hr2) hre)⟩
    · exact Or.inl (lt_of_le_of_ne (by rw [heMw]; exact hw2) hwe)

/-- C1 witness: the spec's two PR examples — (100x5), (100x8), (90x10) gives
the (100x8) row, and the all-equal tie (100x5 twice) gives the id-2 row. -/
theorem fetch_pr_spec_witness :
    ((demo_bench.map SetEntry.id).Nodup
      ∧ ("Bench Press" ∈ (["Bench Press"] : List String))
      ∧ (demo_row.map SetEntry.id).Nodup
      ∧ ("Row" ∈ (["Row"] : List String)))
    ∧ fetch_pr_for_exercises demo_bench 1 ["Bench Press"] ("Bench Press")
        = some ⟨"Bench Press", 100, 8, "d2"⟩
    ∧ fetch_pr_for_exercises demo_row 1 ["Row"] ("Row")
        = some ⟨"Row", 100, 5, "d2"⟩ := by
  refine ⟨⟨by decide, by decide, by decide, by decide⟩, ?_, ?_⟩
  · obtain ⟨e, hmem, -, -, hfetch, hlex⟩ :=
      fetch_pr_spec demo_bench 1 ["Bench Press"] ("Bench Press") (by decide)
        (by decide)
        ⟨⟨1, "d1", "Push", "Bench Press", 100, 5, "t1", none, some 1⟩,
          by decide, by decide, by decide⟩
    have hl := hlex ⟨2, "d2", "Push", "Bench Press", 100, 8, "t2", none, some 1⟩
      (by decide) (by decide) (by decide)
    have he2 : e = ⟨2, "d2", "Push", "Bench Press", 100, 8, "t2", none, some 1⟩ := by
      fin_cases hmem
      · exact absurd (hl (by decide)) (by decide)
      · rfl
      · exact absurd (hl (by decide)) (by decide)
    rw [hfetch, he2]
    rfl
  · obtain ⟨e, hmem, -, -, hfetch, hlex⟩ :=
      fetch_pr_spec demo_row 1 ["Row"] ("Row") (by decide) (by decide)
        ⟨⟨1, "d1", "Pull", "Row", 100, 5, "t1", none, some 1⟩,
          by decide, by decide, by decide⟩
    have hl := hlex ⟨2, "d2", "Pull", "Row", 100, 5, "t2", none, some 1⟩
      (by decide) (by decide) (by decide)
    have he2 : e = ⟨2, "d2", "Pull", "Row", 100, 5, "t2", none, some 1⟩ := by
      fin_cases hmem
      · exact absurd (hl (by decide)) (by decide)
      · rfl
    rw [hfetch, he2]
    rfl

end GymLog
